import Mathlib

/-!
Shallow embedding of the FESTIM repository (hydrogen transport simulation
front-end) for checking its natural-language specification.

Two generations of the code base live in the repository:
* `src/FESTIM/post_processing.py` (fenics-based): derived quantities,
  their CSV header, per-volume min/max reductions, and the main
  `run_post_processing` bookkeeping.
* `src/festim/...` (dolfinx-based): `HydrogenTransportProblem` (markers,
  formulation), `SurfaceQuantity.write`, `XDMFExport`.

External library calls (fenics `assemble`, dolfinx writers, the file
system) are modelled as opaque data (an `Integrator` record, event
traces, an explicit file-system map); everything the repository itself
computes is translated directly from the Python source.
-/

/-- Sequencing of a list of optional values: `some` of the list of values
when every element is `some`, `none` as soon as one element is `none`.
This models a Python loop that raises (`KeyError`, `IndexError`, ...) as
soon as one item fails. -/
def seqOption {α : Type} : List (Option α) → Option (List α)
  | [] => some []
  | o :: rest => o.bind (fun v => (seqOption rest).map (fun vs => v :: vs))

theorem seqOption_map_some {α β : Type} (f : α → β) (xs : List α) :
    seqOption (xs.map (fun x => some (f x))) = some (xs.map f) := by
  induction xs with
  | nil => rfl
  | cons x xs ih => simp [seqOption, ih]

theorem seqOption_length {α : Type} (xs : List (Option α)) (ys : List α)
    (h : seqOption xs = some ys) : ys.length = xs.length := by
  induction xs generalizing ys with
  | nil => simp [seqOption] at h; simp [← h]
  | cons o rest ih =>
    cases o with
    | none => simp [seqOption] at h
    | some v =>
      cases ho : seqOption rest with
      | none => simp [seqOption, ho] at h
      | some vs =>
        simp [seqOption, ho] at h
        simp [← h, ih vs ho]

theorem seqOption_get? {α : Type} (xs : List (Option α)) (ys : List α)
    (h : seqOption xs = some ys) : ∀ i, xs.get? i = (ys.get? i).map some := by
  induction xs generalizing ys with
  | nil =>
    simp [seqOption] at h
    subst h
    intro i; simp
  | cons o rest ih =>
    cases o with
    | none => simp [seqOption] at h
    | some v =>
      cases ho : seqOption rest with
      | none => simp [seqOption, ho] at h
      | some vs =>
        simp [seqOption, ho] at h
        intro i
        cases i with
        | zero => simp [← h]
        | succ n => simpa [← h] using ih vs ho n

theorem seqOption_append {α : Type} (xs ys : List (Option α)) :
    seqOption (xs ++ ys) =
      (seqOption xs).bind (fun a => (seqOption ys).map (fun b => a ++ b)) := by
  induction xs with
  | nil => simp [seqOption]
  | cons o rest ih =>
    cases o with
    | none => simp [seqOption]
    | some v =>
      have h1 : seqOption ((some v :: rest) ++ ys)
          = (seqOption (rest ++ ys)).map (fun vs => v :: vs) := by
        simp [seqOption]
      rw [h1, ih]
      simp only [seqOption]
      cases hr : seqOption rest <;> cases hy : seqOption ys <;> simp [hr, hy]

/-! ## `src/FESTIM/post_processing.py`: per-volume reductions -/

/-- The local dof vector of a fenics function, `function.vector().get_local()`. -/
abbrev DofVec := List ℚ

/-- The data of the fenics mesh / function-space objects that
`calculate_maximum_volume` and `calculate_minimum_volume` consult:
the cell list (`f.SubsetIterator` iterates it), the dofmap
(`V.dofmap().cell_dofs`) and the volume markers (`subdomains[cell]`). -/
structure VolMesh where
  cells : List ℕ
  cell_dofs : ℕ → List ℕ
  marker : ℕ → ℤ

/-- The array `np.unique(np.hstack([dm.cell_dofs(c) for c in SubsetIterator(subdomains, subd_id)]))`:
the deduplicated dofs of the cells marked `subd_id` (`np.unique` also
sorts, which changes neither membership nor the extrema taken below). -/
def subd_dofs (m : VolMesh) (subd_id : ℤ) : List ℕ :=
  ((m.cells.filter (fun c => m.marker c == subd_id)).flatMap m.cell_dofs).dedup

/-- Function `calculate_maximum_volume(function, subdomains, subd_id)`:
`np.max(function.vector().get_local()[subd_dofs])`.  `none` models the
numpy errors raised on an empty dof set or an out-of-range dof. -/
def calculate_maximum_volume (vec : DofVec) (m : VolMesh) (subd_id : ℤ) :
    Option ℚ :=
  (seqOption ((subd_dofs m subd_id).map vec.get?)).bind List.max?

/-- Function `calculate_minimum_volume(function, subdomains, subd_id)`:
`np.min(function.vector().get_local()[subd_dofs])`. -/
def calculate_minimum_volume (vec : DofVec) (m : VolMesh) (subd_id : ℤ) :
    Option ℚ :=
  (seqOption ((subd_dofs m subd_id).map vec.get?)).bind List.min?

/-! ## `src/FESTIM/post_processing.py`: derived quantities -/

/-- A key of the `field_to_sol` / `field_to_prop` dictionaries.  The
Python code normalises the `field` entry of a request with `str(...)`, so
the possible keys are `"solute"`, `"retention"`, `"T"` and the decimal
strings `"1"`, `"2"`, ... naming a trap; `trap i` stands for the string
of the number `i`. -/
inductive FieldKey where
  | solute
  | retention
  | temperature
  | trap (i : ℕ)
deriving DecidableEq, Repr

/-- The rendering `str(field)` as it appears in the CSV header strings. -/
def FieldKey.str : FieldKey → String
  | .solute => "solute"
  | .retention => "retention"
  | .temperature => "T"
  | .trap i => toString i

/-- One entry of a `"surface_flux"` or `"total_surface"` request list:
a field and the surface ids it is evaluated on. -/
structure SurfaceReq where
  field : FieldKey
  surfaces : List ℤ

/-- One entry of an `"average_volume"`, `"minimum_volume"`,
`"maximum_volume"` or `"total_volume"` request list. -/
structure VolumeReq where
  field : FieldKey
  volumes : List ℤ

/-- The dict `parameters["exports"]["derived_quantities"]`: for each quantity
type, `some` of the request list when the key is present. -/
structure DerivedQuantDict where
  surface_flux : Option (List SurfaceReq)
  average_volume : Option (List VolumeReq)
  minimum_volume : Option (List VolumeReq)
  maximum_volume : Option (List VolumeReq)
  total_volume : Option (List VolumeReq)
  total_surface : Option (List SurfaceReq)

/-- The fenics `assemble` calls made by `derived_quantities`, modelled as
opaque real-valued data: the repository only composes them.  The first
argument of `assemble_flux` is the property (`0` for `D`, `1` for
`thermal_cond`) of the `field_to_prop` dictionary. -/
structure Integrator where
  assemble_flux : ℕ → DofVec → ℤ → ℚ
  assemble_soret : DofVec → ℤ → ℚ
  assemble_dx : DofVec → ℤ → ℚ
  measure_dx : ℤ → ℚ
  assemble_ds : DofVec → ℤ → ℚ

/-- The data `derived_quantities(parameters, solutions, markers,
properties)` is evaluated against: the `solutions` list
`[solute, trap_1, ..., trap_n, retention, T]` built by
`run_post_processing`, the volume markers, the assembler, and the soret
flag of `parameters["temperature"]["soret"]`. -/
structure Env where
  solutions : List DofVec
  vmesh : VolMesh
  integ : Integrator
  soret : Bool

/-- The `field_to_sol` dictionary: key `solute` maps to `solutions[0]`,
key `retention` to `solutions[len-2]`, key `T` to `solutions[len-1]`, and
`str(i)` to `solutions[i]` for `i` in `range(1, len(solutions)-2)`.
`none` models the `KeyError` on any other key. -/
def field_to_sol (sols : List DofVec) : FieldKey → Option DofVec
  | .solute => sols.get? 0
  | .retention => sols.get? (sols.length - 2)
  | .temperature => sols.get? (sols.length - 1)
  | .trap i =>
    if 1 ≤ i ∧ i ≤ sols.length - 3 then sols.get? i else none

/-- The `field_to_prop` dictionary (key `solute` maps to `D`, key `T` to
`thermal_cond`);
properties are named by their index. -/
def field_to_prop : FieldKey → Option ℕ
  | .solute => some 0
  | .temperature => some 1
  | _ => none

/-- One `surface_flux` request entry: look the field up in both
dictionaries, then for each listed surface assemble
`prop*dot(grad(sol), n)*ds(surf)`, plus the soret term when the soret
flag is on and the field is `solute`. -/
def fluxValues (env : Env) (fl : SurfaceReq) : Option (List ℚ) :=
  (field_to_sol env.solutions fl.field).bind fun sol =>
    (field_to_prop fl.field).map fun prop =>
      fl.surfaces.map fun surf =>
        let phi := env.integ.assemble_flux prop sol surf
        if env.soret && (fl.field == .solute) then
          phi + env.integ.assemble_soret sol surf
        else phi

/-- One `average_volume` request entry:
`assemble(sol*dx(vol))/assemble(1*dx(vol))` for each listed volume;
`none` models the `ZeroDivisionError` when the subdomain measure is 0. -/
def averageValues (env : Env) (av : VolumeReq) : Option (List ℚ) :=
  (field_to_sol env.solutions av.field).bind fun sol =>
    seqOption (av.volumes.map fun vol =>
      if env.integ.measure_dx vol = 0 then none
      else some (env.integ.assemble_dx sol vol / env.integ.measure_dx vol))

/-- One `minimum_volume` request entry.  For the `retention` field the
code sums `calculate_minimum_volume` over `solutions[0:-2]` (the mobile
and trapped concentrations); otherwise it applies
`calculate_minimum_volume` to the looked-up field. -/
def minimumValues (env : Env) (mn : VolumeReq) : Option (List ℚ) :=
  if mn.field == .retention then
    seqOption (mn.volumes.map fun vol =>
      (seqOption ((env.solutions.take (env.solutions.length - 2)).map
        fun sol => calculate_minimum_volume sol env.vmesh vol)).map List.sum)
  else
    (field_to_sol env.solutions mn.field).bind fun sol =>
      seqOption (mn.volumes.map fun vol =>
        calculate_minimum_volume sol env.vmesh vol)

/-- One `maximum_volume` request entry, same shape as `minimumValues`
with `calculate_maximum_volume`. -/
def maximumValues (env : Env) (mx : VolumeReq) : Option (List ℚ) :=
  if mx.field == .retention then
    seqOption (mx.volumes.map fun vol =>
      (seqOption ((env.solutions.take (env.solutions.length - 2)).map
        fun sol => calculate_maximum_volume sol env.vmesh vol)).map List.sum)
  else
    (field_to_sol env.solutions mx.field).bind fun sol =>
      seqOption (mx.volumes.map fun vol =>
        calculate_maximum_volume sol env.vmesh vol)

/-- One `total_volume` request entry: `assemble(sol*dx(vol))`. -/
def totalVolumeValues (env : Env) (tv : VolumeReq) : Option (List ℚ) :=
  (field_to_sol env.solutions tv.field).map fun sol =>
    tv.volumes.map fun vol => env.integ.assemble_dx sol vol

/-- One `total_surface` request entry: `assemble(sol*ds(surf))`. -/
def totalSurfaceValues (env : Env) (ts : SurfaceReq) : Option (List ℚ) :=
  (field_to_sol env.solutions ts.field).map fun sol =>
    ts.surfaces.map fun surf => env.integ.assemble_ds sol surf

/-- The contribution of one quantity type to the `tab` list: nothing
when the key is absent, otherwise the concatenation of the values of
each entry (failure of one entry aborts the whole computation, as the
Python exception would). -/
def sectionValues {α : Type} (entries : Option (List α))
    (f : α → Option (List ℚ)) : Option (List ℚ) :=
  match entries with
  | none => some []
  | some es => (seqOption (es.map f)).map List.flatten

/-- Function `derived_quantities(parameters, solutions, markers, properties)`:
the `tab` list, built section by section in the fixed order of the source
`surface_flux`, `average_volume`, `minimum_volume`, `maximum_volume`,
`total_volume`, `total_surface`. -/
def derived_quantities (p : DerivedQuantDict) (env : Env) : Option (List ℚ) :=
  (sectionValues p.surface_flux (fluxValues env)).bind fun t1 =>
    (sectionValues p.average_volume (averageValues env)).bind fun t2 =>
      (sectionValues p.minimum_volume (minimumValues env)).bind fun t3 =>
        (sectionValues p.maximum_volume (maximumValues env)).bind fun t4 =>
          (sectionValues p.total_volume (totalVolumeValues env)).bind fun t5 =>
            (sectionValues p.total_surface (totalSurfaceValues env)).map fun t6 =>
              t1 ++ t2 ++ t3 ++ t4 ++ t5 ++ t6

/-- Function `header_derived_quantities(simulation)`: the label `t(s)` followed by one
column label per requested (quantity, surface-or-volume) pair, in the
same fixed quantity order. -/
def header_derived_quantities (p : DerivedQuantDict) : List String :=
  ["t(s)"]
    ++ ((p.surface_flux.getD []).flatMap fun fl =>
      fl.surfaces.map fun surf =>
        "Flux surface " ++ toString surf ++ ": " ++ fl.field.str)
    ++ ((p.average_volume.getD []).flatMap fun av =>
      av.volumes.map fun vol =>
        "Average " ++ av.field.str ++ " volume " ++ toString vol)
    ++ ((p.minimum_volume.getD []).flatMap fun mn =>
      mn.volumes.map fun vol =>
        "Minimum " ++ mn.field.str ++ " volume " ++ toString vol)
    ++ ((p.maximum_volume.getD []).flatMap fun mx =>
      mx.volumes.map fun vol =>
        "Maximum " ++ mx.field.str ++ " volume " ++ toString vol)
    ++ ((p.total_volume.getD []).flatMap fun tv =>
      tv.volumes.map fun vol =>
        "Total " ++ tv.field.str ++ " volume " ++ toString vol)
    ++ ((p.total_surface.getD []).flatMap fun ts =>
      ts.surfaces.map fun surf =>
        "Total " ++ ts.field.str ++ " surface " ++ toString surf)

/-! ### Specification side: the flat request order

The spec describes the header as one entry per requested
(quantity, surface-or-volume) pair in a fixed quantity order, with the
values produced in the same order.  The following definitions follow
that description; the theorems relate them to `derived_quantities` and
`header_derived_quantities` above. -/

/-- A quantity type, in the fixed order of the spec. -/
inductive QuantKind where
  | surface_flux
  | average_volume
  | minimum_volume
  | maximum_volume
  | total_volume
  | total_surface
deriving DecidableEq, Repr

/-- One requested (quantity, field, surface-or-volume id) triple. -/
structure Request where
  kind : QuantKind
  field : FieldKey
  loc : ℤ
deriving DecidableEq, Repr

/-- Modelled from the spec: the flat list of requested pairs, in the
fixed order `surface_flux`, `average_volume`, `minimum_volume`,
`maximum_volume`, `total_volume`, `total_surface`, each section in
request-list order, each request in surface/volume-list order. -/
def requestOrder (p : DerivedQuantDict) : List Request :=
  ((p.surface_flux.getD []).flatMap fun fl =>
    fl.surfaces.map fun surf => Request.mk .surface_flux fl.field surf)
    ++ ((p.average_volume.getD []).flatMap fun av =>
      av.volumes.map fun vol => Request.mk .average_volume av.field vol)
    ++ ((p.minimum_volume.getD []).flatMap fun mn =>
      mn.volumes.map fun vol => Request.mk .minimum_volume mn.field vol)
    ++ ((p.maximum_volume.getD []).flatMap fun mx =>
      mx.volumes.map fun vol => Request.mk .maximum_volume mx.field vol)
    ++ ((p.total_volume.getD []).flatMap fun tv =>
      tv.volumes.map fun vol => Request.mk .total_volume tv.field vol)
    ++ ((p.total_surface.getD []).flatMap fun ts =>
      ts.surfaces.map fun surf => Request.mk .total_surface ts.field surf)

/-- Modelled from the spec: the header column label of one request. -/
def requestHeader (r : Request) : String :=
  match r.kind with
  | .surface_flux => "Flux surface " ++ toString r.loc ++ ": " ++ r.field.str
  | .average_volume => "Average " ++ r.field.str ++ " volume " ++ toString r.loc
  | .minimum_volume => "Minimum " ++ r.field.str ++ " volume " ++ toString r.loc
  | .maximum_volume => "Maximum " ++ r.field.str ++ " volume " ++ toString r.loc
  | .total_volume => "Total " ++ r.field.str ++ " volume " ++ toString r.loc
  | .total_surface => "Total " ++ r.field.str ++ " surface " ++ toString r.loc

/-- The value of one request, computed exactly as the corresponding
branch of `derived_quantities` computes it. -/
def evalRequest (env : Env) (r : Request) : Option ℚ :=
  match r.kind with
  | .surface_flux =>
    (field_to_sol env.solutions r.field).bind fun sol =>
      (field_to_prop r.field).map fun prop =>
        let phi := env.integ.assemble_flux prop sol r.loc
        if env.soret && (r.field == .solute) then
          phi + env.integ.assemble_soret sol r.loc
        else phi
  | .average_volume =>
    (field_to_sol env.solutions r.field).bind fun sol =>
      if env.integ.measure_dx r.loc = 0 then none
      else some (env.integ.assemble_dx sol r.loc / env.integ.measure_dx r.loc)
  | .minimum_volume =>
    if r.field == .retention then
      (seqOption ((env.solutions.take (env.solutions.length - 2)).map
        fun sol => calculate_minimum_volume sol env.vmesh r.loc)).map List.sum
    else
      (field_to_sol env.solutions r.field).bind fun sol =>
        calculate_minimum_volume sol env.vmesh r.loc
  | .maximum_volume =>
    if r.field == .retention then
      (seqOption ((env.solutions.take (env.solutions.length - 2)).map
        fun sol => calculate_maximum_volume sol env.vmesh r.loc)).map List.sum
    else
      (field_to_sol env.solutions r.field).bind fun sol =>
        calculate_maximum_volume sol env.vmesh r.loc
  | .total_volume =>
    (field_to_sol env.solutions r.field).map fun sol =>
      env.integ.assemble_dx sol r.loc
  | .total_surface =>
    (field_to_sol env.solutions r.field).map fun sol =>
      env.integ.assemble_ds sol r.loc

/-! ### Refinement: the sections of the code match the flat order of the spec -/

theorem fluxValues_refine (env : Env) (fl : SurfaceReq) (vs : List ℚ)
    (h : fluxValues env fl = some vs) :
    seqOption ((fl.surfaces.map fun surf =>
      Request.mk .surface_flux fl.field surf).map (evalRequest env)) = some vs := by
  unfold fluxValues at h
  cases hs : field_to_sol env.solutions fl.field with
  | none => simp [hs] at h
  | some sol =>
    cases hp : field_to_prop fl.field with
    | none => simp [hs, hp] at h
    | some prop =>
      simp [hs, hp] at h
      subst h
      rw [List.map_map]
      have : ((fun r => evalRequest env r) ∘ fun surf =>
          Request.mk .surface_flux fl.field surf) = fun surf =>
            some (let phi := env.integ.assemble_flux prop sol surf
              if env.soret && (fl.field == .solute) then
                phi + env.integ.assemble_soret sol surf
              else phi) := by
        funext surf
        simp [evalRequest, hs, hp]
      rw [this, seqOption_map_some]
      simp

theorem averageValues_refine (env : Env) (av : VolumeReq) (vs : List ℚ)
    (h : averageValues env av = some vs) :
    seqOption ((av.volumes.map fun vol =>
      Request.mk .average_volume av.field vol).map (evalRequest env)) = some vs := by
  unfold averageValues at h
  cases hs : field_to_sol env.solutions av.field with
  | none => simp [hs] at h
  | some sol =>
    simp only [hs, Option.some_bind] at h
    rw [List.map_map]
    have : ((fun r => evalRequest env r) ∘ fun vol =>
        Request.mk .average_volume av.field vol) = fun vol =>
          if env.integ.measure_dx vol = 0 then none
          else some (env.integ.assemble_dx sol vol / env.integ.measure_dx vol) := by
      funext vol
      simp [evalRequest, hs]
    rw [this]
    exact h

theorem minimumValues_refine (env : Env) (mn : VolumeReq) (vs : List ℚ)
    (h : minimumValues env mn = some vs) :
    seqOption ((mn.volumes.map fun vol =>
      Request.mk .minimum_volume mn.field vol).map (evalRequest env)) = some vs := by
  unfold minimumValues at h
  rw [List.map_map]
  by_cases hret : mn.field = .retention
  · simp only [hret, beq_self_eq_true, if_true] at h
    have : ((fun r => evalRequest env r) ∘ fun vol =>
        Request.mk .minimum_volume mn.field vol) = fun vol =>
          (seqOption ((env.solutions.take (env.solutions.length - 2)).map
            fun sol => calculate_minimum_volume sol env.vmesh vol)).map List.sum := by
      funext vol
      simp [evalRequest, hret]
    rw [this]
    exact h
  · have hbeq : (mn.field == FieldKey.retention) = false := by
      simp [hret]
    simp only [hbeq, Bool.false_eq_true, if_false] at h
    cases hs : field_to_sol env.solutions mn.field with
    | none => simp [hs] at h
    | some sol =>
      simp only [hs, Option.some_bind] at h
      have : ((fun r => evalRequest env r) ∘ fun vol =>
          Request.mk .minimum_volume mn.field vol) = fun vol =>
            calculate_minimum_volume sol env.vmesh vol := by
        funext vol
        simp [evalRequest, hbeq, hret, hs]
      rw [this]
      exact h

theorem maximumValues_refine (env : Env) (mx : VolumeReq) (vs : List ℚ)
    (h : maximumValues env mx = some vs) :
    seqOption ((mx.volumes.map fun vol =>
      Request.mk .maximum_volume mx.field vol).map (evalRequest env)) = some vs := by
  unfold maximumValues at h
  rw [List.map_map]
  by_cases hret : mx.field = .retention
  · simp only [hret, beq_self_eq_true, if_true] at h
    have : ((fun r => evalRequest env r) ∘ fun vol =>
        Request.mk .maximum_volume mx.field vol) = fun vol =>
          (seqOption ((env.solutions.take (env.solutions.length - 2)).map
            fun sol => calculate_maximum_volume sol env.vmesh vol)).map List.sum := by
      funext vol
      simp [evalRequest, hret]
    rw [this]
    exact h
  · have hbeq : (mx.field == FieldKey.retention) = false := by
      simp [hret]
    simp only [hbeq, Bool.false_eq_true, if_false] at h
    cases hs : field_to_sol env.solutions mx.field with
    | none => simp [hs] at h
    | some sol =>
      simp only [hs, Option.some_bind] at h
      have : ((fun r => evalRequest env r) ∘ fun vol =>
          Request.mk .maximum_volume mx.field vol) = fun vol =>
            calculate_maximum_volume sol env.vmesh vol := by
        funext vol
        simp [evalRequest, hbeq, hret, hs]
      rw [this]
      exact h

theorem totalVolumeValues_refine (env : Env) (tv : VolumeReq) (vs : List ℚ)
    (h : totalVolumeValues env tv = some vs) :
    seqOption ((tv.volumes.map fun vol =>
      Request.mk .total_volume tv.field vol).map (evalRequest env)) = some vs := by
  unfold totalVolumeValues at h
  cases hs : field_to_sol env.solutions tv.field with
  | none => simp [hs] at h
  | some sol =>
    simp [hs] at h
    subst h
    rw [List.map_map]
    have : ((fun r => evalRequest env r) ∘ fun vol =>
        Request.mk .total_volume tv.field vol) = fun vol =>
          some (env.integ.assemble_dx sol vol) := by
      funext vol
      simp [evalRequest, hs]
    rw [this, seqOption_map_some]

theorem totalSurfaceValues_refine (env : Env) (ts : SurfaceReq) (vs : List ℚ)
    (h : totalSurfaceValues env ts = some vs) :
    seqOption ((ts.surfaces.map fun surf =>
      Request.mk .total_surface ts.field surf).map (evalRequest env)) = some vs := by
  unfold totalSurfaceValues at h
  cases hs : field_to_sol env.solutions ts.field with
  | none => simp [hs] at h
  | some sol =>
    simp [hs] at h
    subst h
    rw [List.map_map]
    have : ((fun r => evalRequest env r) ∘ fun surf =>
        Request.mk .total_surface ts.field surf) = fun surf =>
          some (env.integ.assemble_ds sol surf) := by
      funext surf
      simp [evalRequest, hs]
    rw [this, seqOption_map_some]

theorem sectionValues_refine {α : Type} (env : Env) (entries : Option (List α))
    (f : α → Option (List ℚ)) (reqs : α → List Request)
    (hf : ∀ e vs, f e = some vs →
      seqOption ((reqs e).map (evalRequest env)) = some vs)
    (vs : List ℚ) (h : sectionValues entries f = some vs) :
    seqOption (((entries.getD []).flatMap reqs).map (evalRequest env)) = some vs := by
  cases entries with
  | none =>
    simp [sectionValues] at h
    simp [← h, seqOption]
  | some es =>
    simp only [Option.getD_some]
    induction es generalizing vs with
    | nil =>
      simp [sectionValues, seqOption] at h
      simp [← h, seqOption]
    | cons e es ih =>
      simp only [sectionValues, List.map_cons] at h
      cases he : f e with
      | none => simp [seqOption, he] at h
      | some ts =>
        cases hes : seqOption (es.map f) with
        | none => simp [seqOption, he, hes] at h
        | some tss =>
          simp [seqOption, he, hes] at h
          have hrest : seqOption ((es.flatMap reqs).map (evalRequest env))
              = some tss.flatten := by
            apply ih
            simp [sectionValues, hes]
          rw [List.flatMap_cons, List.map_append, seqOption_append,
            hf e ts he, hrest]
          simp [← h]

theorem derived_quantities_refine (p : DerivedQuantDict) (env : Env)
    (tab : List ℚ) (h : derived_quantities p env = some tab) :
    seqOption ((requestOrder p).map (evalRequest env)) = some tab := by
  unfold derived_quantities at h
  cases h1 : sectionValues p.surface_flux (fluxValues env) with
  | none => simp [h1] at h
  | some t1 =>
  cases h2 : sectionValues p.average_volume (averageValues env) with
  | none => simp [h1, h2] at h
  | some t2 =>
  cases h3 : sectionValues p.minimum_volume (minimumValues env) with
  | none => simp [h1, h2, h3] at h
  | some t3 =>
  cases h4 : sectionValues p.maximum_volume (maximumValues env) with
  | none => simp [h1, h2, h3, h4] at h
  | some t4 =>
  cases h5 : sectionValues p.total_volume (totalVolumeValues env) with
  | none => simp [h1, h2, h3, h4, h5] at h
  | some t5 =>
  cases h6 : sectionValues p.total_surface (totalSurfaceValues env) with
  | none => simp [h1, h2, h3, h4, h5, h6] at h
  | some t6 =>
  simp [h1, h2, h3, h4, h5, h6] at h
  have r1 := sectionValues_refine env p.surface_flux (fluxValues env) _
    (fluxValues_refine env) t1 h1
  have r2 := sectionValues_refine env p.average_volume (averageValues env) _
    (averageValues_refine env) t2 h2
  have r3 := sectionValues_refine env p.minimum_volume (minimumValues env) _
    (minimumValues_refine env) t3 h3
  have r4 := sectionValues_refine env p.maximum_volume (maximumValues env) _
    (maximumValues_refine env) t4 h4
  have r5 := sectionValues_refine env p.total_volume (totalVolumeValues env) _
    (totalVolumeValues_refine env) t5 h5
  have r6 := sectionValues_refine env p.total_surface (totalSurfaceValues env) _
    (totalSurfaceValues_refine env) t6 h6
  unfold requestOrder
  rw [List.map_append, seqOption_append, List.map_append, seqOption_append,
    List.map_append, seqOption_append, List.map_append, seqOption_append,
    List.map_append, seqOption_append, r1, r2, r3, r4, r5, r6]
  simp [← h]

theorem header_refine (p : DerivedQuantDict) :
    header_derived_quantities p = "t(s)" :: (requestOrder p).map requestHeader := by
  unfold header_derived_quantities requestOrder
  simp only [List.map_append, List.map_flatMap, List.map_map, List.cons_append,
    List.nil_append, List.cons.injEq, true_and]
  congr 1

/-! ## `run_post_processing`: derived-quantities bookkeeping -/

/-- The slice of the `Simulation` object that the derived-quantities
portion of `run_post_processing` reads: the request dict (present in
`parameters["exports"]` or not), the iteration counters, the current
time, the evaluation data, the accumulated rows and the stepsize that is
passed through as second return value. -/
structure SimState where
  params : DerivedQuantDict
  has_derived_quantities : Bool
  transient : Bool
  nb_iterations : ℕ
  nb_iterations_between_compute_derived_quantities : ℕ
  t : ℚ
  env : Env
  derived_quantities_global : List (List ℚ)
  dt : ℚ

/-- Function `run_post_processing(simulation)` restricted to its effect on
`derived_quantities_global`: when `"derived_quantities"` is requested
and `nb_iterations` is divisible by
`nb_iterations_between_compute_derived_quantities`, the row
`[t] + derived_quantities(...)` is appended; otherwise the list is
untouched.  `none` models the exceptions the Python code would raise
(`%` by zero, a failing `derived_quantities` call). -/
def run_post_processing (s : SimState) : Option (List (List ℚ) × ℚ) :=
  if s.has_derived_quantities then
    if s.nb_iterations_between_compute_derived_quantities = 0 then none
    else if s.nb_iterations % s.nb_iterations_between_compute_derived_quantities
        = 0 then
      (derived_quantities s.params s.env).map fun tab =>
        (s.derived_quantities_global ++ [s.t :: tab], s.dt)
    else some (s.derived_quantities_global, s.dt)
  else some (s.derived_quantities_global, s.dt)

/-- C2: the header is the label `t(s)` followed by exactly one entry per
requested (quantity, surface-or-volume) pair in the fixed quantity
order; `derived_quantities` produces its values in the same order, so a
recorded row `t :: tab` has the same length as the header and value `i`
of `tab` is the value of the request labelling header column `i+1`. -/
theorem header_and_values_aligned (p : DerivedQuantDict) (env : Env)
    (t : ℚ) (tab : List ℚ) (h : derived_quantities p env = some tab) :
    header_derived_quantities p = "t(s)" :: (requestOrder p).map requestHeader
    ∧ tab.length = (requestOrder p).length
    ∧ (∀ i, ((requestOrder p).get? i).bind (evalRequest env) = tab.get? i)
    ∧ (t :: tab).length = (header_derived_quantities p).length := by
  have href := derived_quantities_refine p env tab h
  have hlen := seqOption_length _ _ href
  refine ⟨header_refine p, ?_, ?_, ?_⟩
  · simpa using hlen
  · intro i
    have hg := seqOption_get? _ _ href i
    rw [List.get?_map] at hg
    cases hr : (requestOrder p).get? i with
    | none =>
      rw [hr] at hg
      cases ht : tab.get? i with
      | none => simp
      | some v => rw [ht] at hg; simp at hg
    | some r =>
      rw [hr] at hg
      cases ht : tab.get? i with
      | none => rw [ht] at hg; simp at hg
      | some v =>
        rw [ht] at hg
        simp at hg
        simpa using hg
  · rw [header_refine p]
    simpa using hlen

/-- Concrete parameters for the alignment witness: a surface-flux
request on two surfaces and a total-volume request on one volume. -/
def pAlign : DerivedQuantDict :=
  { surface_flux := some [{ field := .solute, surfaces := [1, 2] }]
    average_volume := none
    minimum_volume := none
    maximum_volume := none
    total_volume := some [{ field := .retention, volumes := [1] }]
    total_surface := none }

/-- A concrete evaluation environment with three solution fields
(solute, retention, T) and constant assembled values. -/
def envAlign : Env :=
  { solutions := [[1], [2], [3]]
    vmesh := { cells := [0], cell_dofs := fun _ => [0], marker := fun _ => 1 }
    integ :=
      { assemble_flux := fun _ _ _ => 2
        assemble_soret := fun _ _ => 7
        assemble_dx := fun _ _ => 5
        measure_dx := fun _ => 1
        assemble_ds := fun _ _ => 4 }
    soret := false }

theorem header_and_values_aligned_witness :
    header_derived_quantities pAlign
      = "t(s)" :: (requestOrder pAlign).map requestHeader
    ∧ ([2, 2, 5] : List ℚ).length = (requestOrder pAlign).length
    ∧ (∀ i, ((requestOrder pAlign).get? i).bind (evalRequest envAlign)
        = ([2, 2, 5] : List ℚ).get? i)
    ∧ ((0 : ℚ) :: [2, 2, 5]).length
        = (header_derived_quantities pAlign).length :=
  header_and_values_aligned pAlign envAlign 0 [2, 2, 5] (by rfl)

/-- C8: in a transient run with `"derived_quantities"` requested,
`run_post_processing` appends exactly the row `t :: tab` when
`nb_iterations` is divisible by
`nb_iterations_between_compute_derived_quantities`, appends nothing
otherwise, never changes the rows already present, and returns the
(possibly extended) list as first component. -/
theorem run_post_processing_rows (s : SimState) (tab : List ℚ)
    (hreq : s.has_derived_quantities = true)
    (htrans : s.transient = true)
    (hnz : s.nb_iterations_between_compute_derived_quantities ≠ 0)
    (hdq : derived_quantities s.params s.env = some tab) :
    (s.nb_iterations % s.nb_iterations_between_compute_derived_quantities = 0 →
      run_post_processing s
        = some (s.derived_quantities_global ++ [s.t :: tab], s.dt))
    ∧ (s.nb_iterations % s.nb_iterations_between_compute_derived_quantities ≠ 0 →
      run_post_processing s = some (s.derived_quantities_global, s.dt))
    ∧ (∀ res, run_post_processing s = some res →
        ∀ i, i < s.derived_quantities_global.length →
          res.1.get? i = s.derived_quantities_global.get? i) := by
  refine ⟨?_, ?_, ?_⟩
  · intro hmod
    simp [run_post_processing, hreq, hnz, hmod, hdq]
  · intro hmod
    simp [run_post_processing, hreq, hnz, hmod]
  · intro res hres i hi
    by_cases hmod :
        s.nb_iterations % s.nb_iterations_between_compute_derived_quantities = 0
    · simp [run_post_processing, hreq, hnz, hmod, hdq] at hres
      subst hres
      exact List.get?_append hi
    · simp [run_post_processing, hreq, hnz, hmod] at hres
      subst hres
      rfl

/-- Concrete state for the bookkeeping witness: second iteration,
computing every second iteration, one row already recorded. -/
def sBookkeeping : SimState :=
  { params :=
      { surface_flux := none, average_volume := none, minimum_volume := none
        maximum_volume := none, total_volume := none, total_surface := none }
    has_derived_quantities := true
    transient := true
    nb_iterations := 2
    nb_iterations_between_compute_derived_quantities := 2
    t := 1
    env := envAlign
    derived_quantities_global := [[9]]
    dt := 1 }

theorem run_post_processing_rows_witness :
    (sBookkeeping.nb_iterations
        % sBookkeeping.nb_iterations_between_compute_derived_quantities = 0 →
      run_post_processing sBookkeeping
        = some (sBookkeeping.derived_quantities_global
            ++ [sBookkeeping.t :: []], sBookkeeping.dt))
    ∧ (sBookkeeping.nb_iterations
        % sBookkeeping.nb_iterations_between_compute_derived_quantities ≠ 0 →
      run_post_processing sBookkeeping
        = some (sBookkeeping.derived_quantities_global, sBookkeeping.dt))
    ∧ (∀ res, run_post_processing sBookkeeping = some res →
        ∀ i, i < sBookkeeping.derived_quantities_global.length →
          res.1.get? i = sBookkeeping.derived_quantities_global.get? i) :=
  run_post_processing_rows sBookkeeping [] (by rfl) (by rfl) (by decide) (by rfl)

/-! ## Extrema over marked cells (C4) -/

theorem foldl_max_spec (as : List ℚ) (a : ℚ) :
    as.foldl max a ∈ a :: as ∧ a ≤ as.foldl max a
      ∧ ∀ x ∈ as, x ≤ as.foldl max a := by
  induction as generalizing a with
  | nil => simp
  | cons b bs ih =>
    obtain ⟨hmem, hle, hall⟩ := ih (max a b)
    have hstep : (b :: bs).foldl max a = bs.foldl max (max a b) := rfl
    rw [hstep]
    refine ⟨?_, le_trans (le_max_left a b) hle, ?_⟩
    · rcases List.mem_cons.mp hmem with hm | hm
      · rw [hm]
        rcases max_choice a b with hc | hc <;> rw [hc]
        · exact List.mem_cons_self _ _
        · exact List.mem_cons.mpr (Or.inr (List.mem_cons_self _ _))
      · exact List.mem_cons.mpr (Or.inr (List.mem_cons.mpr (Or.inr hm)))
    · intro x hx
      rcases List.mem_cons.mp hx with hx | hx
      · rw [hx]
        exact le_trans (le_max_right a b) hle
      · exact hall x hx

theorem foldl_min_spec (as : List ℚ) (a : ℚ) :
    as.foldl min a ∈ a :: as ∧ as.foldl min a ≤ a
      ∧ ∀ x ∈ as, as.foldl min a ≤ x := by
  induction as generalizing a with
  | nil => simp
  | cons b bs ih =>
    obtain ⟨hmem, hle, hall⟩ := ih (min a b)
    have hstep : (b :: bs).foldl min a = bs.foldl min (min a b) := rfl
    rw [hstep]
    refine ⟨?_, le_trans hle (min_le_left a b), ?_⟩
    · rcases List.mem_cons.mp hmem with hm | hm
      · rw [hm]
        rcases min_choice a b with hc | hc <;> rw [hc]
        · exact List.mem_cons_self _ _
        · exact List.mem_cons.mpr (Or.inr (List.mem_cons_self _ _))
      · exact List.mem_cons.mpr (Or.inr (List.mem_cons.mpr (Or.inr hm)))
    · intro x hx
      rcases List.mem_cons.mp hx with hx | hx
      · rw [hx]
        exact le_trans hle (min_le_right a b)
      · exact hall x hx

theorem max?_spec (l : List ℚ) (h : l ≠ []) :
    ∃ v, l.max? = some v ∧ v ∈ l ∧ ∀ x ∈ l, x ≤ v := by
  cases l with
  | nil => exact absurd rfl h
  | cons a as =>
    obtain ⟨hmem, hle, hall⟩ := foldl_max_spec as a
    refine ⟨as.foldl max a, rfl, hmem, ?_⟩
    intro x hx
    rcases List.mem_cons.mp hx with hx | hx
    · subst hx; exact hle
    · exact hall x hx

theorem min?_spec (l : List ℚ) (h : l ≠ []) :
    ∃ v, l.min? = some v ∧ v ∈ l ∧ ∀ x ∈ l, v ≤ x := by
  cases l with
  | nil => exact absurd rfl h
  | cons a as =>
    obtain ⟨hmem, hle, hall⟩ := foldl_min_spec as a
    refine ⟨as.foldl min a, rfl, hmem, ?_⟩
    intro x hx
    rcases List.mem_cons.mp hx with hx | hx
    · subst hx; exact hle
    · exact hall x hx

theorem mem_subd_dofs (m : VolMesh) (subd_id : ℤ) (d : ℕ) :
    d ∈ subd_dofs m subd_id
      ↔ ∃ c ∈ m.cells, m.marker c = subd_id ∧ d ∈ m.cell_dofs c := by
  simp [subd_dofs, List.mem_dedup, List.mem_flatMap, List.mem_filter,
    beq_iff_eq]
  constructor
  · rintro ⟨c, ⟨hc, hm⟩, hd⟩
    exact ⟨c, hc, hm, hd⟩
  · rintro ⟨c, hc, hm, hd⟩
    exact ⟨c, ⟨hc, hm⟩, hd⟩

theorem seqOption_get_vec (vec : DofVec) (ds : List ℕ)
    (h : ∀ d ∈ ds, d < vec.length) :
    seqOption (ds.map vec.get?) = some (ds.map fun d => vec.getD d 0) := by
  induction ds with
  | nil => rfl
  | cons d ds ih =>
    have hd : d < vec.length := h d (by simp)
    have hsome : vec.get? d = some (vec.getD d 0) := by
      rw [List.getD_eq_getElem?_getD]
      cases hv : vec.get? d with
      | none => simp [List.get?_eq_none] at hv; omega
      | some v => simp [← List.get?_eq_getElem?, hv]
    have hrest := ih (fun x hx => h x (List.mem_cons_of_mem d hx))
    simp only [List.map_cons, seqOption, hsome, hrest, Option.some_bind,
      Option.map_some']

/-- C4: on a subdomain id carried by at least one cell (with dofs, all
in range), `calculate_maximum_volume` returns the maximum and
`calculate_minimum_volume` the minimum of the dof values of the function over
the dofs of the cells marked with that id. -/
theorem calculate_extrema_volume_spec (vec : DofVec) (m : VolMesh)
    (subd_id : ℤ)
    (hex : ∃ c ∈ m.cells, m.marker c = subd_id ∧ m.cell_dofs c ≠ [])
    (hdof : ∀ c ∈ m.cells, m.marker c = subd_id →
      ∀ d ∈ m.cell_dofs c, d < vec.length) :
    (∃ vmax, calculate_maximum_volume vec m subd_id = some vmax
      ∧ (∃ c ∈ m.cells, m.marker c = subd_id
          ∧ ∃ d ∈ m.cell_dofs c, vec.getD d 0 = vmax)
      ∧ ∀ c ∈ m.cells, m.marker c = subd_id →
          ∀ d ∈ m.cell_dofs c, vec.getD d 0 ≤ vmax)
    ∧ (∃ vmin, calculate_minimum_volume vec m subd_id = some vmin
      ∧ (∃ c ∈ m.cells, m.marker c = subd_id
          ∧ ∃ d ∈ m.cell_dofs c, vec.getD d 0 = vmin)
      ∧ ∀ c ∈ m.cells, m.marker c = subd_id →
          ∀ d ∈ m.cell_dofs c, vmin ≤ vec.getD d 0) := by
  have hdofs : ∀ d ∈ subd_dofs m subd_id, d < vec.length := by
    intro d hd
    obtain ⟨c, hc, hm, hdc⟩ := (mem_subd_dofs m subd_id d).mp hd
    exact hdof c hc hm d hdc
  have hne : subd_dofs m subd_id ≠ [] := by
    obtain ⟨c, hc, hm, hdc⟩ := hex
    cases hcd : m.cell_dofs c with
    | nil => exact absurd hcd hdc
    | cons d ds =>
      intro hnil
      have : d ∈ subd_dofs m subd_id :=
        (mem_subd_dofs m subd_id d).mpr ⟨c, hc, hm, by simp [hcd]⟩
      simp [hnil] at this
  have hseq := seqOption_get_vec vec (subd_dofs m subd_id) hdofs
  have hvalsne : (subd_dofs m subd_id).map (fun d => vec.getD d 0) ≠ [] := by
    simpa using hne
  constructor
  · obtain ⟨vmax, hmax, hmem, hbound⟩ :=
      max?_spec ((subd_dofs m subd_id).map fun d => vec.getD d 0) hvalsne
    refine ⟨vmax, ?_, ?_, ?_⟩
    · unfold calculate_maximum_volume
      rw [hseq]
      simpa using hmax
    · obtain ⟨d, hd, hv⟩ := List.mem_map.mp hmem
      obtain ⟨c, hc, hm, hdc⟩ := (mem_subd_dofs m subd_id d).mp hd
      exact ⟨c, hc, hm, d, hdc, hv⟩
    · intro c hc hm d hdc
      exact hbound _ (List.mem_map.mpr
        ⟨d, (mem_subd_dofs m subd_id d).mpr ⟨c, hc, hm, hdc⟩, rfl⟩)
  · obtain ⟨vmin, hmin, hmem, hbound⟩ :=
      min?_spec ((subd_dofs m subd_id).map fun d => vec.getD d 0) hvalsne
    refine ⟨vmin, ?_, ?_, ?_⟩
    · unfold calculate_minimum_volume
      rw [hseq]
      simpa using hmin
    · obtain ⟨d, hd, hv⟩ := List.mem_map.mp hmem
      obtain ⟨c, hc, hm, hdc⟩ := (mem_subd_dofs m subd_id d).mp hd
      exact ⟨c, hc, hm, d, hdc, hv⟩
    · intro c hc hm d hdc
      exact hbound _ (List.mem_map.mpr
        ⟨d, (mem_subd_dofs m subd_id d).mpr ⟨c, hc, hm, hdc⟩, rfl⟩)

/-- A two-cell mesh with overlapping dofs for the extrema witness. -/
def meshExtrema : VolMesh :=
  { cells := [0, 1]
    cell_dofs := fun c => if c = 0 then [0, 1] else if c = 1 then [1, 2] else []
    marker := fun _ => 1 }

theorem calculate_extrema_volume_spec_witness :
    (∃ vmax, calculate_maximum_volume [3, 1, 2] meshExtrema 1 = some vmax
      ∧ (∃ c ∈ meshExtrema.cells, meshExtrema.marker c = 1
          ∧ ∃ d ∈ meshExtrema.cell_dofs c, ([3, 1, 2] : DofVec).getD d 0 = vmax)
      ∧ ∀ c ∈ meshExtrema.cells, meshExtrema.marker c = 1 →
          ∀ d ∈ meshExtrema.cell_dofs c, ([3, 1, 2] : DofVec).getD d 0 ≤ vmax)
    ∧ (∃ vmin, calculate_minimum_volume [3, 1, 2] meshExtrema 1 = some vmin
      ∧ (∃ c ∈ meshExtrema.cells, meshExtrema.marker c = 1
          ∧ ∃ d ∈ meshExtrema.cell_dofs c, ([3, 1, 2] : DofVec).getD d 0 = vmin)
      ∧ ∀ c ∈ meshExtrema.cells, meshExtrema.marker c = 1 →
          ∀ d ∈ meshExtrema.cell_dofs c, vmin ≤ ([3, 1, 2] : DofVec).getD d 0) :=
  calculate_extrema_volume_spec [3, 1, 2] meshExtrema 1 (by decide) (by decide)

/-! ## Values of individual requests (C3, C5) -/

theorem dq_value_at (p : DerivedQuantDict) (env : Env) (tab : List ℚ)
    (h : derived_quantities p env = some tab) (i : ℕ) :
    ((requestOrder p).get? i).bind (evalRequest env) = tab.get? i := by
  have href := derived_quantities_refine p env tab h
  have hg := seqOption_get? _ _ href i
  rw [List.get?_map] at hg
  cases hr : (requestOrder p).get? i with
  | none =>
    rw [hr] at hg
    cases ht : tab.get? i with
    | none => simp
    | some v => rw [ht] at hg; simp at hg
  | some r =>
    rw [hr] at hg
    cases ht : tab.get? i with
    | none => rw [ht] at hg; simp at hg
    | some v =>
      rw [ht] at hg
      simp at hg
      simpa using hg

theorem dq_length (p : DerivedQuantDict) (env : Env) (tab : List ℚ)
    (h : derived_quantities p env = some tab) :
    tab.length = (requestOrder p).length := by
  have href := derived_quantities_refine p env tab h
  simpa using seqOption_length _ _ href

/-- C5: a recorded `average_volume` value is the integral of the field
over the cells marked with the volume id divided by the measure of that
subdomain, `assemble(sol*dx(vol))/assemble(1*dx(vol))`. -/
theorem average_volume_quotient (p : DerivedQuantDict) (env : Env)
    (tab : List ℚ) (i : ℕ) (fld : FieldKey) (vol : ℤ) (sol : DofVec)
    (h : derived_quantities p env = some tab)
    (hi : (requestOrder p).get? i = some ⟨.average_volume, fld, vol⟩)
    (hs : field_to_sol env.solutions fld = some sol) :
    tab.get? i
      = some (env.integ.assemble_dx sol vol / env.integ.measure_dx vol) := by
  have hv := dq_value_at p env tab h i
  rw [hi] at hv
  have hlt : i < tab.length := by
    rw [dq_length p env tab h]
    obtain ⟨hl, -⟩ := List.get?_eq_some.mp hi
    exact hl
  simp only [Option.some_bind, evalRequest, hs] at hv
  by_cases hm : env.integ.measure_dx vol = 0
  · exfalso
    rw [if_pos hm] at hv
    have hnone : tab.get? i = none := hv.symm
    rw [List.get?_eq_none] at hnone
    omega
  · rw [if_neg hm] at hv
    exact hv.symm

/-- Parameters requesting one volume average of the solute field. -/
def pAvg : DerivedQuantDict :=
  { surface_flux := none
    average_volume := some [{ field := .solute, volumes := [1] }]
    minimum_volume := none
    maximum_volume := none
    total_volume := none
    total_surface := none }

theorem average_volume_quotient_witness :
    ([5 / 1] : List ℚ).get? 0
      = some (envAlign.integ.assemble_dx [1] 1 / envAlign.integ.measure_dx 1) :=
  average_volume_quotient pAvg envAlign [5 / 1] 0 .solute 1 [1]
    (by rfl) (by rfl) (by rfl)

/-- An all-zero assembler for environments where only the dof-level
reductions matter. -/
def integZero : Integrator :=
  { assemble_flux := fun _ _ _ => 0
    assemble_soret := fun _ _ => 0
    assemble_dx := fun _ _ => 0
    measure_dx := fun _ => 0
    assemble_ds := fun _ _ => 0 }

/-- One cell (marked 1, dofs 0 and 1), a solute field `[0, 10]`, one
trap field `[10, 0]`, their sum the retention field `[10, 10]`, and a
temperature field. -/
def envRet : Env :=
  { solutions := [[0, 10], [10, 0], [10, 10], [500, 500]]
    vmesh := { cells := [0], cell_dofs := fun _ => [0, 1], marker := fun _ => 1 }
    integ := integZero
    soret := false }

/-- Parameters requesting the volume minimum of the retention field. -/
def pRetMin : DerivedQuantDict :=
  { surface_flux := none
    average_volume := none
    minimum_volume := some [{ field := .retention, volumes := [1] }]
    maximum_volume := none
    total_volume := none
    total_surface := none }

/-- C3 counterexample: with solute `[0, 10]` and one trap `[10, 0]` on a
single cell, the code reports `min(solute) + min(trap) = 0` for the
minimum of retention, while the minimum of the retention field
`[10, 10]` itself is `10`. -/
theorem min_retention_counterexample :
    derived_quantities pRetMin envRet = some [0]
    ∧ field_to_sol envRet.solutions .retention = some [10, 10]
    ∧ calculate_minimum_volume [10, 10] envRet.vmesh 1 = some 10
    ∧ derived_quantities pRetMin envRet
        ≠ some [(calculate_minimum_volume [10, 10] envRet.vmesh 1).getD 0] := by
  have h1 : derived_quantities pRetMin envRet
      = some [([0, 0] : List ℚ).sum] := rfl
  have h2 : ([0, 0] : List ℚ).sum = 0 := by norm_num
  have h3 : calculate_minimum_volume [10, 10] envRet.vmesh 1 = some 10 := rfl
  refine ⟨by rw [h1, h2], rfl, h3, ?_⟩
  rw [h1, h2, h3]
  simp only [Option.getD_some, ne_eq, Option.some.injEq, List.cons.injEq,
    and_true]
  norm_num

/-- C3 (amended): a recorded `minimum_volume` (resp. `maximum_volume`)
value for the `retention` field is the sum over the mobile and trapped
concentration fields of the own minimum (resp. maximum) of each field over
the dofs of the subdomain — not the extremum of the retention field. -/
theorem retention_extrema_sum (p : DerivedQuantDict) (env : Env)
    (tab : List ℚ) (i : ℕ) (vol : ℤ)
    (h : derived_quantities p env = some tab) :
    ((requestOrder p).get? i
        = some ⟨.minimum_volume, .retention, vol⟩ →
      ∃ mins, seqOption ((env.solutions.take (env.solutions.length - 2)).map
          fun sol => calculate_minimum_volume sol env.vmesh vol) = some mins
        ∧ tab.get? i = some mins.sum)
    ∧ ((requestOrder p).get? i
        = some ⟨.maximum_volume, .retention, vol⟩ →
      ∃ maxs, seqOption ((env.solutions.take (env.solutions.length - 2)).map
          fun sol => calculate_maximum_volume sol env.vmesh vol) = some maxs
        ∧ tab.get? i = some maxs.sum) := by
  constructor
  · intro hi
    have hv := dq_value_at p env tab h i
    rw [hi] at hv
    simp only [Option.some_bind, evalRequest, beq_self_eq_true, if_true] at hv
    cases hseq : seqOption ((env.solutions.take (env.solutions.length - 2)).map
        fun sol => calculate_minimum_volume sol env.vmesh vol) with
    | none =>
      exfalso
      rw [hseq] at hv
      simp at hv
      have hlt : i < tab.length := by
        rw [dq_length p env tab h]
        obtain ⟨hl, -⟩ := List.get?_eq_some.mp hi
        exact hl
      omega
    | some mins =>
      rw [hseq] at hv
      exact ⟨mins, rfl, by simpa using hv.symm⟩
  · intro hi
    have hv := dq_value_at p env tab h i
    rw [hi] at hv
    simp only [Option.some_bind, evalRequest, beq_self_eq_true, if_true] at hv
    cases hseq : seqOption ((env.solutions.take (env.solutions.length - 2)).map
        fun sol => calculate_maximum_volume sol env.vmesh vol) with
    | none =>
      exfalso
      rw [hseq] at hv
      simp at hv
      have hlt : i < tab.length := by
        rw [dq_length p env tab h]
        obtain ⟨hl, -⟩ := List.get?_eq_some.mp hi
        exact hl
      omega
    | some maxs =>
      rw [hseq] at hv
      exact ⟨maxs, rfl, by simpa using hv.symm⟩

/-- Parameters requesting both the minimum and the maximum of
retention. -/
def pRetBoth : DerivedQuantDict :=
  { surface_flux := none
    average_volume := none
    minimum_volume := some [{ field := .retention, volumes := [1] }]
    maximum_volume := some [{ field := .retention, volumes := [1] }]
    total_volume := none
    total_surface := none }

/-- The row the code computes for `pRetBoth` on `envRet`. -/
def tabRetBoth : List ℚ := [([0, 0] : List ℚ).sum, ([10, 10] : List ℚ).sum]

theorem retention_extrema_sum_witness :
    ((requestOrder pRetBoth).get? 0
        = some ⟨.minimum_volume, .retention, 1⟩ →
      ∃ mins, seqOption ((envRet.solutions.take
            (envRet.solutions.length - 2)).map
          fun sol => calculate_minimum_volume sol envRet.vmesh 1) = some mins
        ∧ tabRetBoth.get? 0 = some mins.sum)
    ∧ ((requestOrder pRetBoth).get? 0
        = some ⟨.maximum_volume, .retention, 1⟩ →
      ∃ maxs, seqOption ((envRet.solutions.take
            (envRet.solutions.length - 2)).map
          fun sol => calculate_maximum_volume sol envRet.vmesh 1) = some maxs
        ∧ tabRetBoth.get? 0 = some maxs.sum) :=
  retention_extrema_sum pRetBoth envRet tabRetBoth 0 1 (by rfl)

/-! ## `src/festim` (dolfinx generation): subdomains and markers -/

/-- A `festim.VolumeSubdomain1D`: its id and the cell indices that
`locate_subdomain_entities` returns for it. -/
structure VolumeSubdomain1D where
  id : ℤ
  entities : List ℕ

/-- A `festim.SurfaceSubdomain1D`: its id and the facet index that
`locate_dof` returns for it. -/
structure SurfaceSubdomain1D where
  id : ℤ
  dof : ℕ

/-- An element of `HydrogenTransportProblem.subdomains`. -/
inductive Subdomain where
  | vol (v : VolumeSubdomain1D)
  | surf (s : SurfaceSubdomain1D)

/-- Assignment `tags_volumes[entities] = subdomain_id`: numpy fancy-index
assignment, one write per listed entity. -/
def setTags (tags : List ℤ) (entities : List ℕ) (subdomain_id : ℤ) : List ℤ :=
  entities.foldl (fun tg e => tg.set e subdomain_id) tags

/-- One iteration of the subdomain loop of
`define_markers_and_measures`: volume subdomains overwrite the cell
tags on their entities, surface subdomains leave them alone. -/
def volumeTagStep (tags : List ℤ) : Subdomain → List ℤ
  | .vol v => setTags tags v.entities v.id
  | .surf _ => tags

/-- The cell tag array after the subdomain loop: all `num_cells` cells
start at 0, then each listed volume subdomain writes its id on its
located entities, in list order. -/
def define_volume_tags (num_cells : ℕ) (subs : List Subdomain) : List ℤ :=
  subs.foldl volumeTagStep (List.replicate num_cells 0)

/-- The `(dofs_facets, tags_facets)` pairs accumulated by the loop, in
order: one `(dof, id)` pair per listed `SurfaceSubdomain1D`. -/
def facet_tag_pairs (subs : List Subdomain) : List (ℕ × ℤ) :=
  subs.filterMap fun sd =>
    match sd with
    | .surf s => some (s.dof, s.id)
    | .vol _ => none

/-- Looking a facet up in the resulting facet meshtags. -/
def facet_tag_lookup (pairs : List (ℕ × ℤ)) (d : ℕ) : Option ℤ :=
  (pairs.find? (fun pr => pr.1 == d)).map Prod.snd

theorem setTags_length (tags : List ℤ) (entities : List ℕ)
    (subdomain_id : ℤ) : (setTags tags entities subdomain_id).length
      = tags.length := by
  induction entities generalizing tags with
  | nil => rfl
  | cons e es ih =>
    show (setTags (tags.set e subdomain_id) es subdomain_id).length
      = tags.length
    rw [ih (tags.set e subdomain_id), List.length_set]

theorem setTags_get? (tags : List ℤ) (entities : List ℕ)
    (subdomain_id : ℤ) (c : ℕ) :
    (setTags tags entities subdomain_id).get? c
      = if c ∈ entities ∧ c < tags.length then some subdomain_id
        else tags.get? c := by
  induction entities generalizing tags with
  | nil => simp [setTags]
  | cons e es ih =>
    have hstep : setTags tags (e :: es) subdomain_id
        = setTags (tags.set e subdomain_id) es subdomain_id := rfl
    rw [hstep, ih (tags.set e subdomain_id)]
    by_cases hces : c ∈ es
    · by_cases hlen : c < tags.length
      · simp [hces, hlen]
      · simp only [hces, true_and, List.length_set, hlen, if_false]
        have h1 : (tags.set e subdomain_id)[c]? = none := by
          rw [List.getElem?_eq_none]
          simp [List.length_set]
          omega
        have h2 : tags[c]? = none := by
          rw [List.getElem?_eq_none]
          omega
        rw [List.get?_eq_getElem?, List.get?_eq_getElem?, h1, h2]
        simp
    · by_cases hce : c = e
      · subst hce
        by_cases hlen : c < tags.length
        · simp only [hces, false_and, false_or, List.length_set, hlen,
            and_true, if_true, List.mem_cons, true_or, true_and]
          rw [List.get?_eq_getElem?, List.getElem?_set_self]
          · simp [hlen]
          · exact hlen
        · simp only [hces, List.length_set, hlen, and_false, if_false,
            List.mem_cons, false_and]
          have h1 : (tags.set c subdomain_id)[c]? = none := by
            rw [List.getElem?_eq_none]
            simp [List.length_set]
            omega
          have h2 : tags[c]? = none := by
            rw [List.getElem?_eq_none]
            omega
          rw [List.get?_eq_getElem?, List.get?_eq_getElem?, h1, h2]
      · have hmem : ¬ c ∈ e :: es := by
          simp [hce, hces]
        simp only [hmem, false_and, if_false, hces, List.length_set]
        rw [List.get?_eq_getElem?, List.get?_eq_getElem?,
          List.getElem?_set_ne (Ne.symm hce)]

/-- The entities a subdomain writes cell tags on: the located cells of a
volume subdomain, nothing for a surface subdomain. -/
def Subdomain.entitiesOf : Subdomain → List ℕ
  | .vol v => v.entities
  | .surf _ => []

theorem volumeTagStep_length (tags : List ℤ) (sd : Subdomain) :
    (volumeTagStep tags sd).length = tags.length := by
  cases sd with
  | vol v => exact setTags_length tags v.entities v.id
  | surf s => rfl

theorem foldl_volumeTagStep_length (subs : List Subdomain) (tags : List ℤ) :
    (subs.foldl volumeTagStep tags).length = tags.length := by
  induction subs generalizing tags with
  | nil => rfl
  | cons sd ss ih =>
    rw [List.foldl_cons, ih (volumeTagStep tags sd), volumeTagStep_length]

theorem foldl_volumeTagStep_get? (subs : List Subdomain) (tags : List ℤ)
    (c : ℕ)
    (hent : ∀ sd ∈ subs, ∀ e ∈ sd.entitiesOf, e < tags.length) :
    ((¬ ∃ v, Subdomain.vol v ∈ subs ∧ c ∈ v.entities) →
      (subs.foldl volumeTagStep tags).get? c = tags.get? c)
    ∧ ((∃ v, Subdomain.vol v ∈ subs ∧ c ∈ v.entities) →
      ∃ v, Subdomain.vol v ∈ subs ∧ c ∈ v.entities
        ∧ (subs.foldl volumeTagStep tags).get? c = some v.id) := by
  induction subs generalizing tags with
  | nil =>
    constructor
    · intro _; rfl
    · rintro ⟨v, hv, -⟩
      exact absurd hv (List.not_mem_nil _)
  | cons sd ss ih =>
    have hent' : ∀ sd' ∈ ss, ∀ e ∈ sd'.entitiesOf,
        e < (volumeTagStep tags sd).length := by
      intro sd' hsd' e he
      rw [volumeTagStep_length]
      exact hent sd' (List.mem_cons_of_mem sd hsd') e he
    obtain ⟨ih1, ih2⟩ := ih (volumeTagStep tags sd) hent'
    rw [List.foldl_cons]
    constructor
    · intro hnc
      have hnss : ¬ ∃ v, Subdomain.vol v ∈ ss ∧ c ∈ v.entities := by
        rintro ⟨v, hv, hc⟩
        exact hnc ⟨v, List.mem_cons_of_mem sd hv, hc⟩
      rw [ih1 hnss]
      cases sd with
      | surf s => rfl
      | vol v =>
        have hnv : c ∉ v.entities := by
          intro hc
          exact hnc ⟨v, List.mem_cons_self _ _, hc⟩
        show (setTags tags v.entities v.id).get? c = tags.get? c
        rw [setTags_get?]
        simp [hnv]
    · intro hcov
      by_cases hss : ∃ v, Subdomain.vol v ∈ ss ∧ c ∈ v.entities
      · obtain ⟨v, hv, hc, heq⟩ := ih2 hss
        exact ⟨v, List.mem_cons_of_mem sd hv, hc, heq⟩
      · obtain ⟨v, hv, hc⟩ := hcov
        rcases List.mem_cons.mp hv with hv | hv
        · refine ⟨v, ?_, hc, ?_⟩
          · rw [hv]; exact List.mem_cons_self _ _
          rw [ih1 hss, ← hv]
          show (setTags tags v.entities v.id).get? c = some v.id
          rw [setTags_get?]
          have hlt : c < tags.length := by
            have := hent (Subdomain.vol v) (hv ▸ List.mem_cons_self _ _) c
            exact this (by simpa [Subdomain.entitiesOf] using hc)
          simp [hc, hlt]
        · exact absurd ⟨v, hv, hc⟩ hss

theorem mem_facet_tag_pairs (subs : List Subdomain) (s : SurfaceSubdomain1D)
    (h : Subdomain.surf s ∈ subs) : (s.dof, s.id) ∈ facet_tag_pairs subs := by
  exact List.mem_filterMap.mpr ⟨Subdomain.surf s, h, rfl⟩

theorem facet_lookup_of_nodup (subs : List Subdomain)
    (hnodup : ((facet_tag_pairs subs).map Prod.fst).Nodup) :
    ∀ s, Subdomain.surf s ∈ subs →
      facet_tag_lookup (facet_tag_pairs subs) s.dof = some s.id := by
  induction subs with
  | nil =>
    intro s hs
    exact absurd hs (List.not_mem_nil _)
  | cons sd ss ih =>
    intro s hs
    cases sd with
    | vol v =>
      have hpairs : facet_tag_pairs (Subdomain.vol v :: ss)
          = facet_tag_pairs ss := rfl
      rw [hpairs] at hnodup ⊢
      rcases List.mem_cons.mp hs with hs | hs
      · exact absurd hs (by simp)
      · exact ih hnodup s hs
    | surf s0 =>
      have hpairs : facet_tag_pairs (Subdomain.surf s0 :: ss)
          = (s0.dof, s0.id) :: facet_tag_pairs ss := rfl
      rw [hpairs] at hnodup ⊢
      rw [List.map_cons, List.nodup_cons] at hnodup
      obtain ⟨hhead, htail⟩ := hnodup
      rcases List.mem_cons.mp hs with hs | hs
      · have : s = s0 := by injection hs
        subst this
        simp [facet_tag_lookup, List.find?]
      · have hmem : (s.dof, s.id) ∈ facet_tag_pairs ss :=
          mem_facet_tag_pairs ss s hs
        have hne : s.dof ≠ s0.dof := by
          intro hcon
          exact hhead (hcon ▸ List.mem_map.mpr ⟨(s.dof, s.id), hmem, rfl⟩)
        have hbeq : (s0.dof == s.dof) = false :=
          beq_eq_false_iff_ne.mpr (Ne.symm hne)
        have hstep : facet_tag_lookup ((s0.dof, s0.id) :: facet_tag_pairs ss)
            s.dof = facet_tag_lookup (facet_tag_pairs ss) s.dof := by
          simp [facet_tag_lookup, List.find?, hbeq]
        rw [hstep]
        exact ih htail s hs

/-- C6: after `define_markers_and_measures`, every cell carries exactly
one integer tag — the id of a listed volume subdomain whose located
entities contain it, and 0 when no listed volume subdomain contains it —
and the located facet of each listed surface subdomain is tagged with the
id of that subdomain. -/
theorem define_markers_spec (num_cells : ℕ) (subs : List Subdomain)
    (hent : ∀ sd ∈ subs, ∀ e ∈ sd.entitiesOf, e < num_cells)
    (hdofs : ((facet_tag_pairs subs).map Prod.fst).Nodup) :
    (define_volume_tags num_cells subs).length = num_cells
    ∧ (∀ c, c < num_cells →
        ((¬ ∃ v, Subdomain.vol v ∈ subs ∧ c ∈ v.entities) →
          (define_volume_tags num_cells subs).get? c = some 0)
        ∧ ((∃ v, Subdomain.vol v ∈ subs ∧ c ∈ v.entities) →
          ∃ v, Subdomain.vol v ∈ subs ∧ c ∈ v.entities
            ∧ (define_volume_tags num_cells subs).get? c = some v.id))
    ∧ (∀ s, Subdomain.surf s ∈ subs →
        facet_tag_lookup (facet_tag_pairs subs) s.dof = some s.id) := by
  have hrep : (List.replicate num_cells (0 : ℤ)).length = num_cells :=
    List.length_replicate num_cells 0
  refine ⟨?_, ?_, facet_lookup_of_nodup subs hdofs⟩
  · rw [define_volume_tags, foldl_volumeTagStep_length, hrep]
  · intro c hc
    have hent' : ∀ sd ∈ subs, ∀ e ∈ sd.entitiesOf,
        e < (List.replicate num_cells (0 : ℤ)).length := by
      rw [hrep]; exact hent
    obtain ⟨h1, h2⟩ := foldl_volumeTagStep_get? subs
      (List.replicate num_cells 0) c hent'
    constructor
    · intro hnc
      rw [define_volume_tags, h1 hnc, List.get?_eq_getElem?,
        List.getElem?_replicate]
      simp [hc]
    · exact h2

/-- Concrete mesh data for the markers witness: three cells, two volume
subdomains covering cells 0 and 1 (cell 2 uncovered), two surface
subdomains on facets 0 and 3. -/
def subsMarkers : List Subdomain :=
  [Subdomain.vol ⟨1, [0]⟩, Subdomain.vol ⟨2, [1]⟩,
   Subdomain.surf ⟨1, 0⟩, Subdomain.surf ⟨2, 3⟩]

theorem define_markers_spec_witness :
    (define_volume_tags 3 subsMarkers).length = 3
    ∧ (∀ c, c < 3 →
        ((¬ ∃ v, Subdomain.vol v ∈ subsMarkers ∧ c ∈ v.entities) →
          (define_volume_tags 3 subsMarkers).get? c = some 0)
        ∧ ((∃ v, Subdomain.vol v ∈ subsMarkers ∧ c ∈ v.entities) →
          ∃ v, Subdomain.vol v ∈ subsMarkers ∧ c ∈ v.entities
            ∧ (define_volume_tags 3 subsMarkers).get? c = some v.id))
    ∧ (∀ s, Subdomain.surf s ∈ subsMarkers →
        facet_tag_lookup (facet_tag_pairs subsMarkers) s.dof = some s.id) :=
  define_markers_spec 3 subsMarkers
    (by
      intro sd hsd e he
      rcases List.mem_cons.mp hsd with h | hsd
      · subst h; simp [Subdomain.entitiesOf] at he; omega
      rcases List.mem_cons.mp hsd with h | hsd
      · subst h; simp [Subdomain.entitiesOf] at he; omega
      rcases List.mem_cons.mp hsd with h | hsd
      · subst h; simp [Subdomain.entitiesOf] at he
      rcases List.mem_cons.mp hsd with h | hsd
      · subst h; simp [Subdomain.entitiesOf] at he
      · exact absurd hsd (List.not_mem_nil sd))
    (by decide)

/-! ## `src/festim/hydrogen_transport_problem.py`: formulation (C1) -/

/-- A `festim.Species`, identified by its name. -/
structure Species where
  name : String
deriving DecidableEq, Repr

/-- The inputs of a `HydrogenTransportProblem` that drive
the control flow of `initialise()` and the shape of the formulation: the
species list, the sources list (opaque — the source loop is commented
out in the code), and the subdomain list.  Mesh and temperature are
taken as set, as the claim assumes. -/
structure HydrogenTransportProblem where
  species : List Species
  sources : List ℕ
  subdomains : List Subdomain

/-- A term of the UFL formulation built by `create_formulation`:
`dot(D*grad(u), grad(v))*dx(vol_id)` (with `D` the diffusion
coefficient of the material of the subdomain at the problem temperature) or
`((u - u_n)/dt)*v*dx(vol_id)`, for the species solution `u`, previous
solution `u_n` and test function `v`. -/
inductive FormTerm where
  | diffusion (species_name : String) (vol_id : ℤ)
  | transient (species_name : String) (vol_id : ℤ)
deriving DecidableEq, Repr

/-- The list `self.volume_subdomains` as accumulated by
`define_markers_and_measures`: the `VolumeSubdomain1D` elements of
`self.subdomains`, in order. -/
def volume_subdomains (subs : List Subdomain) : List VolumeSubdomain1D :=
  subs.filterMap fun sd =>
    match sd with
    | .vol v => some v
    | .surf _ => none

/-- Method `assign_functions_to_species`: raises `NotImplementedError` when
there is more than one species, otherwise creates the solution, previous
solution and test function of each species (pure bookkeeping here). -/
def assign_functions_to_species (p : HydrogenTransportProblem) :
    Except String Unit :=
  if p.species.length > 1 then throw "Multiple species not implemented yet"
  else pure ()

/-- Method `create_formulation`: raises `NotImplementedError` when there is
more than one source or more than one species; otherwise sums, for each
species and each volume subdomain, the diffusion term and the transient
term.  The source and boundary-flux loops are commented out in the
source, so no other term is added. -/
def create_formulation (p : HydrogenTransportProblem) :
    Except String (List FormTerm) :=
  if p.sources.length > 1 then throw "Sources not implemented yet"
  else if p.species.length > 1 then
    throw "Multiple species not implemented yet"
  else
    pure (p.species.flatMap fun spe =>
      (volume_subdomains p.subdomains).flatMap fun v =>
        [FormTerm.diffusion spe.name v.id, FormTerm.transient spe.name v.id])

/-- Method `initialise()`: `define_function_space`, `define_markers_and_measures`
and `assign_functions_to_species` run first (only the latter can raise),
then `create_formulation` builds the formulation. -/
def initialise (p : HydrogenTransportProblem) : Except String (List FormTerm) :=
  (assign_functions_to_species p).bind fun _ => create_formulation p

/-- A problem with a mobile and a trap species (and one with two
sources), on which `initialise()` raises instead of assembling. -/
def twoSpeciesProblem : HydrogenTransportProblem :=
  { species := [⟨"H"⟩, ⟨"trapped_H"⟩]
    sources := []
    subdomains := [Subdomain.vol ⟨1, [0]⟩] }

/-- C1 counterexample: `initialise()` does not assemble the formulation
for a problem with more than one species (mobile plus trap) — it raises
`NotImplementedError` — and likewise for more than one source. -/
theorem initialise_multi_species_fails :
    initialise twoSpeciesProblem
      = Except.error "Multiple species not implemented yet"
    ∧ initialise { twoSpeciesProblem with
        species := [⟨"H"⟩], sources := [0, 1] }
      = Except.error "Sources not implemented yet" := by
  constructor <;> rfl

/-- C1 (amended): for a problem with at most one species and at most one
source, `initialise()` assembles the formulation with, for each species
and each listed volume subdomain, exactly the diffusion term and the
transient term (in that order); source terms are never added. -/
theorem initialise_formulation (p : HydrogenTransportProblem)
    (hspe : p.species.length ≤ 1) (hsrc : p.sources.length ≤ 1) :
    initialise p = Except.ok (p.species.flatMap fun spe =>
      (volume_subdomains p.subdomains).flatMap fun v =>
        [FormTerm.diffusion spe.name v.id,
         FormTerm.transient spe.name v.id]) := by
  have h1 : ¬ p.species.length > 1 := by omega
  have h2 : ¬ p.sources.length > 1 := by omega
  simp [initialise, assign_functions_to_species, create_formulation, h1, h2]
  rfl

/-- A one-species one-source problem with two volume subdomains and one
surface subdomain. -/
def oneSpeciesProblem : HydrogenTransportProblem :=
  { species := [⟨"H"⟩]
    sources := [0]
    subdomains := [Subdomain.vol ⟨1, [0]⟩, Subdomain.surf ⟨1, 0⟩,
      Subdomain.vol ⟨2, [1]⟩] }

theorem initialise_formulation_witness :
    initialise oneSpeciesProblem
      = Except.ok (oneSpeciesProblem.species.flatMap fun spe =>
        (volume_subdomains oneSpeciesProblem.subdomains).flatMap fun v =>
          [FormTerm.diffusion spe.name v.id,
           FormTerm.transient spe.name v.id]) :=
  initialise_formulation oneSpeciesProblem (by decide) (by decide)

/-! ## `src/festim/exports/surface_quantity.py`: CSV writing (C7) -/

/-- A CSV cell as written by `csv.writer`: a string (header) or a
number (time or flux value). -/
inductive CsvCell where
  | str (s : String)
  | num (q : ℚ)
deriving DecidableEq, Repr

/-- The file system: file name to list of rows (a missing file is the
empty list). -/
def FileSys : Type := String → List (List CsvCell)

/-- The mutable state of a `SurfaceQuantity`: surface id and field name
(read through `self.surface.id` / `self.field.name`), the optional
filename, the lazily initialised `title`, the `_first_time_export` flag
and the current `value`. -/
structure SurfaceQuantity where
  surface_id : ℤ
  field_name : String
  filename : Option String
  title : Option String
  first_time_export : Bool
  value : ℚ

/-- The title computed on the first `write` call:
the string of `"Flux surface "`, the surface id, `": "` and the field name. -/
def titleString (sq : SurfaceQuantity) : String :=
  "Flux surface " ++ toString sq.surface_id ++ ": " ++ sq.field_name

/-- Method `SurfaceQuantity.write(t)`: set `title` if still `None`; if a
filename is set, on the first export open the file with mode `"w+"`
(truncating it) and write the header row, then in all cases append the
row `[t, self.value]`.  With no filename, nothing is written. -/
def SurfaceQuantity.write (sq : SurfaceQuantity) (fs : FileSys) (t : ℚ) :
    SurfaceQuantity × FileSys :=
  let sq1 := if sq.title = none then { sq with title := some (titleString sq) }
    else sq
  match sq1.filename with
  | none => (sq1, fs)
  | some name =>
    let hdr := [CsvCell.str "t(s)", CsvCell.str (sq1.title.getD "")]
    let st2 : SurfaceQuantity × FileSys :=
      if sq1.first_time_export then
        ({ sq1 with first_time_export := false },
         fun m => if m = name then [hdr] else fs m)
      else (sq1, fs)
    (st2.1, fun m =>
      if m = name then st2.2 name ++ [[CsvCell.num t, CsvCell.num sq1.value]]
      else st2.2 m)

/-- A sequence of `compute`+`write` calls: before each `write(t)` the
surrounding export loop stores the newly computed flux in `value`. -/
def writeSeq (sq : SurfaceQuantity) (fs : FileSys) :
    List (ℚ × ℚ) → SurfaceQuantity × FileSys
  | [] => (sq, fs)
  | (t, v) :: rest =>
    let st := SurfaceQuantity.write { sq with value := v } fs t
    writeSeq st.1 st.2 rest

theorem write_steady_state (sq : SurfaceQuantity) (fs : FileSys)
    (name : String) (s : String) (t v : ℚ)
    (hf : sq.filename = some name) (ht : sq.title = some s)
    (hfst : sq.first_time_export = false) :
    SurfaceQuantity.write { sq with value := v } fs t
      = ({ sq with value := v },
        fun m => if m = name then fs name ++ [[CsvCell.num t, CsvCell.num v]]
          else fs m) := by
  simp [SurfaceQuantity.write, ht, hf, hfst]

theorem writeSeq_steady (sq : SurfaceQuantity) (fs : FileSys)
    (name : String) (s : String) (tvs : List (ℚ × ℚ))
    (hf : sq.filename = some name) (ht : sq.title = some s)
    (hfst : sq.first_time_export = false) :
    ((writeSeq sq fs tvs).2 name
        = fs name ++ tvs.map (fun tv => [CsvCell.num tv.1, CsvCell.num tv.2]))
    ∧ (∀ m, m ≠ name → (writeSeq sq fs tvs).2 m = fs m)
    ∧ (writeSeq sq fs tvs).1.filename = some name
    ∧ (writeSeq sq fs tvs).1.title = some s
    ∧ (writeSeq sq fs tvs).1.first_time_export = false := by
  induction tvs generalizing sq fs with
  | nil => simpa [writeSeq] using ⟨hf, ht, hfst⟩
  | cons tv rest ih =>
    obtain ⟨t, v⟩ := tv
    rw [writeSeq, write_steady_state sq fs name s t v hf ht hfst]
    obtain ⟨ih1, ih2, ih3, ih4, ih5⟩ := ih { sq with value := v }
      (fun m => if m = name then fs name
        ++ [[CsvCell.num t, CsvCell.num v]] else fs m) hf ht hfst
    refine ⟨?_, ?_, ih3, ih4, ih5⟩
    · rw [ih1]
      simp
    · intro m hm
      rw [ih2 m hm]
      simp [hm]

theorem write_first_call (sq : SurfaceQuantity) (fs : FileSys)
    (name : String) (t v : ℚ)
    (hf : sq.filename = some name) (ht : sq.title = none)
    (hfst : sq.first_time_export = true) :
    SurfaceQuantity.write { sq with value := v } fs t
      = ({ sq with value := v, title := some (titleString sq)
                   first_time_export := false },
        fun m => if m = name then
            [[CsvCell.str "t(s)", CsvCell.str (titleString sq)],
             [CsvCell.num t, CsvCell.num v]]
          else fs m) := by
  simp only [SurfaceQuantity.write, ht, hf, hfst, if_true]
  refine Prod.ext ?_ ?_
  · simp [titleString]
  · funext m
    by_cases hm : m = name <;> simp [hm, titleString]

/-- C7: from a freshly constructed `SurfaceQuantity` with a filename,
the first `write(t)` truncates the file and writes the header row
of the time label and the flux title (surface id and field name), every call
appends exactly one `[t, value]` row after the existing content (so
earlier rows are never modified), no other file is touched, and with
`filename = None` nothing is written at all. -/
theorem surface_quantity_write_spec (sq : SurfaceQuantity) (fs : FileSys)
    (name : String) (t v : ℚ) (tvs : List (ℚ × ℚ))
    (hf : sq.filename = some name) (ht : sq.title = none)
    (hfst : sq.first_time_export = true) :
    ((writeSeq sq fs ((t, v) :: tvs)).2 name
        = [CsvCell.str "t(s)", CsvCell.str (titleString sq)]
          :: ((t, v) :: tvs).map
            (fun tv => [CsvCell.num tv.1, CsvCell.num tv.2]))
    ∧ (∀ m, m ≠ name → (writeSeq sq fs ((t, v) :: tvs)).2 m = fs m)
    ∧ (∀ (sq' : SurfaceQuantity) (fs' : FileSys) (tvs' : List (ℚ × ℚ)),
        sq'.filename = none → (writeSeq sq' fs' tvs').2 = fs') := by
  have hstep : writeSeq sq fs ((t, v) :: tvs)
      = writeSeq { sq with value := v, title := some (titleString sq)
                           first_time_export := false }
        (fun m => if m = name then
            [[CsvCell.str "t(s)", CsvCell.str (titleString sq)],
             [CsvCell.num t, CsvCell.num v]]
          else fs m) tvs := by
    rw [writeSeq, write_first_call sq fs name t v hf ht hfst]
  obtain ⟨h1, h2, -, -, -⟩ := writeSeq_steady
    { sq with value := v, title := some (titleString sq)
              first_time_export := false }
    (fun m => if m = name then
        [[CsvCell.str "t(s)", CsvCell.str (titleString sq)],
         [CsvCell.num t, CsvCell.num v]]
      else fs m) name (titleString sq) tvs (by simp [hf]) (by simp) (by simp)
  refine ⟨?_, ?_, ?_⟩
  · rw [hstep, h1]
    simp
  · intro m hm
    rw [hstep, h2 m hm]
    simp [hm]
  · intro sq' fs' tvs' hnone
    induction tvs' generalizing sq' fs' with
    | nil => rfl
    | cons tv rest ih =>
      obtain ⟨t', v'⟩ := tv
      have hwr : SurfaceQuantity.write { sq' with value := v' } fs' t'
          = (if sq'.title = none then
              { sq' with value := v', title := some (titleString sq') }
            else { sq' with value := v' }, fs') := by
        by_cases htit : sq'.title = none <;>
          simp [SurfaceQuantity.write, htit, hnone, titleString]
      rw [writeSeq, hwr]
      by_cases htit : sq'.title = none
      · simp only [htit, if_true]
        exact ih _ _ (by simp [hnone])
      · simp only [htit, if_false]
        exact ih _ _ (by simp [hnone])

/-- A freshly constructed `SurfaceQuantity` exporting to `flux.csv`. -/
def sqFlux : SurfaceQuantity :=
  { surface_id := 1
    field_name := "H"
    filename := some "flux.csv"
    title := none
    first_time_export := true
    value := 0 }

/-- The empty file system. -/
def fsEmpty : FileSys := fun _ => []

theorem surface_quantity_write_spec_witness :
    ((writeSeq sqFlux fsEmpty (((0 : ℚ), (3 : ℚ)) :: [(1, 4)])).2 "flux.csv"
        = [CsvCell.str "t(s)", CsvCell.str (titleString sqFlux)]
          :: (((0 : ℚ), (3 : ℚ)) :: [(1, 4)]).map
            (fun tv => [CsvCell.num tv.1, CsvCell.num tv.2]))
    ∧ (∀ m, m ≠ "flux.csv" →
        (writeSeq sqFlux fsEmpty (((0 : ℚ), (3 : ℚ)) :: [(1, 4)])).2 m
          = fsEmpty m)
    ∧ (∀ (sq' : SurfaceQuantity) (fs' : FileSys) (tvs' : List (ℚ × ℚ)),
        sq'.filename = none → (writeSeq sq' fs' tvs').2 = fs') :=
  surface_quantity_write_spec sqFlux fsEmpty "flux.csv" 0 3 [(1, 4)]
    rfl rfl rfl

/-! ## `src/festim/exports/xdmf.py`: field setter (C9) and write (C10) -/

/-- A Python value handed to the `field` setter: a `festim.Species`, a
list, or anything else (int, str, ...). -/
inductive PyValue where
  | species (s : Species)
  | list (elems : List PyValue)
  | other (descr : String)

/-- Check `isinstance(value, festim.Species)`. -/
def isSpeciesVal : PyValue → Bool
  | .species _ => true
  | _ => false

/-- Extract the species from a value, when it is one. -/
def toSpeciesVal : PyValue → Option Species
  | .species s => some s
  | _ => none

/-- The body of the `XDMFExport.field` setter: a list is accepted when
every element is a `Species` (otherwise `TypeError`), a lone `Species`
is wrapped in a one-element list, anything else raises `TypeError`
(`none`). -/
def xdmf_field_setter : PyValue → Option (List Species)
  | .list elems => seqOption (elems.map toSpeciesVal)
  | .species s => some [s]
  | .other _ => none

/-- The attribute-holding state of the export object: `none` before
`_field` has ever been assigned. -/
structure XDMFFieldState where
  fieldAttr : Option (List Species)
deriving DecidableEq

/-- Running the setter on the object: on success `_field` is assigned,
on `TypeError` (second component `true`) the attribute is untouched. -/
def setField (st : XDMFFieldState) (v : PyValue) : XDMFFieldState × Bool :=
  match xdmf_field_setter v with
  | some l => ({ fieldAttr := some l }, false)
  | none => (st, true)

theorem seqOption_eq_none_of_mem {α β : Type} (f : α → Option β)
    (xs : List α) (x : α) (hx : x ∈ xs) (hf : f x = none) :
    seqOption (xs.map f) = none := by
  induction xs with
  | nil => exact absurd hx (List.not_mem_nil x)
  | cons y ys ih =>
    rcases List.mem_cons.mp hx with hx | hx
    · rw [← hx]
      simp [seqOption, hf]
    · rw [List.map_cons]
      cases hfy : f y with
      | none => simp [seqOption, hfy]
      | some b => simp [seqOption, hfy, ih hx]

/-- C9: the `field` setter stores a single `Species` as a one-element
list, stores a list of `Species` as given, and on any other input
(including a list with a non-`Species` element) raises `TypeError` and
leaves the attribute unchanged. -/
theorem xdmf_field_setter_spec (st : XDMFFieldState) (s : Species)
    (elems : List PyValue) (d : String) :
    (setField st (.species s) = (⟨some [s]⟩, false))
    ∧ ((∀ e ∈ elems, isSpeciesVal e = true) →
        ∃ l, xdmf_field_setter (.list elems) = some l
          ∧ elems = l.map PyValue.species
          ∧ setField st (.list elems) = (⟨some l⟩, false))
    ∧ ((∃ e ∈ elems, isSpeciesVal e = false) →
        xdmf_field_setter (.list elems) = none
        ∧ setField st (.list elems) = (st, true))
    ∧ setField st (.other d) = (st, true) := by
  refine ⟨rfl, ?_, ?_, rfl⟩
  · intro hall
    have : ∃ l, seqOption (elems.map toSpeciesVal) = some l
        ∧ elems = l.map PyValue.species := by
      induction elems with
      | nil => exact ⟨[], rfl, rfl⟩
      | cons e es ih =>
        obtain ⟨l, hl, hes⟩ := ih fun e' he' =>
          hall e' (List.mem_cons_of_mem e he')
        have he : isSpeciesVal e = true := hall e (List.mem_cons_self _ _)
        cases e with
        | species se =>
          exact ⟨se :: l, by simp [seqOption, toSpeciesVal, hl],
            by simp [← hes]⟩
        | list es' => simp [isSpeciesVal] at he
        | other d' => simp [isSpeciesVal] at he
    obtain ⟨l, hl, hes⟩ := this
    exact ⟨l, hl, hes, by simp [setField, xdmf_field_setter, hl]⟩
  · rintro ⟨e, he, hne⟩
    have hnone : toSpeciesVal e = none := by
      cases e with
      | species se => simp [isSpeciesVal] at hne
      | list es' => rfl
      | other d' => rfl
    have h0 : xdmf_field_setter (.list elems) = none :=
      seqOption_eq_none_of_mem toSpeciesVal elems e he hnone
    exact ⟨h0, by simp [setField, h0]⟩

theorem xdmf_field_setter_spec_witness :
    (setField ⟨none⟩ (.species ⟨"H"⟩) = (⟨some [⟨"H"⟩]⟩, false))
    ∧ ((∀ e ∈ [PyValue.species ⟨"H"⟩, PyValue.other "int"],
          isSpeciesVal e = true) →
        ∃ l, xdmf_field_setter
            (.list [PyValue.species ⟨"H"⟩, PyValue.other "int"]) = some l
          ∧ [PyValue.species ⟨"H"⟩, PyValue.other "int"]
              = l.map PyValue.species
          ∧ setField ⟨none⟩
              (.list [PyValue.species ⟨"H"⟩, PyValue.other "int"])
            = (⟨some l⟩, false))
    ∧ ((∃ e ∈ [PyValue.species ⟨"H"⟩, PyValue.other "int"],
          isSpeciesVal e = false) →
        xdmf_field_setter
            (.list [PyValue.species ⟨"H"⟩, PyValue.other "int"]) = none
        ∧ setField ⟨none⟩
            (.list [PyValue.species ⟨"H"⟩, PyValue.other "int"])
          = (⟨none⟩, true))
    ∧ setField ⟨none⟩ (.other "int") = (⟨none⟩, true) :=
  xdmf_field_setter_spec ⟨none⟩ ⟨"H"⟩
    [PyValue.species ⟨"H"⟩, PyValue.other "int"] "int"

/-- The state of an `XDMFExport` after `define_writer`: its field list
and the `_mesh_written` flag (set to `False` in `__init__`). -/
structure XDMFExportW where
  fields : List Species
  mesh_written : Bool

/-- One observable call on the `dolfinx` XDMF writer. -/
inductive XdmfEvent where
  | mesh
  | func (species_name : String) (t : ℚ)
deriving DecidableEq, Repr

/-- Method `XDMFExport.write(t)`: write the mesh once (guarded by
`_mesh_written`), then write the post-processing solution of every
listed field at time `t`. -/
def XDMFExportW.write (x : XDMFExportW) (t : ℚ) :
    XDMFExportW × List XdmfEvent :=
  let st := if x.mesh_written then (x, ([] : List XdmfEvent))
    else ({ x with mesh_written := true }, [XdmfEvent.mesh])
  (st.1, st.2 ++ x.fields.map fun f => XdmfEvent.func f.name t)

/-- A sequence of `write` calls, collecting every writer call made. -/
def xdmfWriteSeq (x : XDMFExportW) : List ℚ → XDMFExportW × List XdmfEvent
  | [] => (x, [])
  | t :: ts =>
    let st := x.write t
    let st2 := xdmfWriteSeq st.1 ts
    (st2.1, st.2 ++ st2.2)

theorem xdmfWriteSeq_written (x : XDMFExportW) (ts : List ℚ)
    (h : x.mesh_written = true) :
    xdmfWriteSeq x ts
      = (x, ts.flatMap fun t => x.fields.map fun f => XdmfEvent.func f.name t) := by
  induction ts with
  | nil => rfl
  | cons t ts ih =>
    have hw : x.write t = (x, x.fields.map fun f => XdmfEvent.func f.name t) := by
      simp [XDMFExportW.write, h]
    rw [xdmfWriteSeq]
    simp [hw, ih]

/-- C10: starting from `_mesh_written = False`, a nonempty sequence of
`write` calls writes the mesh exactly once — during the first call — and
each call writes the post-processing solution of every listed field
exactly once at its time. -/
theorem xdmf_write_spec (x : XDMFExportW) (t : ℚ) (ts : List ℚ)
    (h : x.mesh_written = false) :
    (xdmfWriteSeq x (t :: ts)).2
      = (XdmfEvent.mesh :: x.fields.map fun f => XdmfEvent.func f.name t)
        ++ ts.flatMap (fun u => x.fields.map fun f => XdmfEvent.func f.name u)
    ∧ (xdmfWriteSeq x (t :: ts)).2.count XdmfEvent.mesh = 1 := by
  have hw : x.write t = ({ x with mesh_written := true },
      XdmfEvent.mesh :: x.fields.map fun f => XdmfEvent.func f.name t) := by
    simp [XDMFExportW.write, h]
  have htail := xdmfWriteSeq_written { x with mesh_written := true } ts rfl
  have htrace : (xdmfWriteSeq x (t :: ts)).2
      = (XdmfEvent.mesh :: x.fields.map fun f => XdmfEvent.func f.name t)
        ++ ts.flatMap (fun u => x.fields.map fun f => XdmfEvent.func f.name u) := by
    rw [xdmfWriteSeq]
    simp only [hw, htail]
  have h1 : (x.fields.map fun f => XdmfEvent.func f.name t).count
      XdmfEvent.mesh = 0 := by
    rw [List.count_eq_zero]
    intro hmem
    obtain ⟨f, -, hf⟩ := List.mem_map.mp hmem
    exact XdmfEvent.noConfusion hf
  have h2 : (ts.flatMap fun u => x.fields.map fun f =>
      XdmfEvent.func f.name u).count XdmfEvent.mesh = 0 := by
    rw [List.count_eq_zero]
    intro hmem
    obtain ⟨u, -, hu⟩ := List.mem_flatMap.mp hmem
    obtain ⟨f, -, hf⟩ := List.mem_map.mp hu
    exact XdmfEvent.noConfusion hf
  refine ⟨htrace, ?_⟩
  rw [htrace]
  simp [List.count_append, List.count_cons, h1, h2]

theorem xdmf_write_spec_witness :
    (xdmfWriteSeq ⟨[⟨"H"⟩, ⟨"D"⟩], false⟩ ((0 : ℚ) :: [1, 2])).2
      = (XdmfEvent.mesh :: ([⟨"H"⟩, ⟨"D"⟩] : List Species).map
          fun f => XdmfEvent.func f.name 0)
        ++ ([(1 : ℚ), 2]).flatMap (fun u =>
          ([⟨"H"⟩, ⟨"D"⟩] : List Species).map fun f => XdmfEvent.func f.name u)
    ∧ (xdmfWriteSeq ⟨[⟨"H"⟩, ⟨"D"⟩], false⟩ ((0 : ℚ) :: [1, 2])).2.count
        XdmfEvent.mesh = 1 :=
  xdmf_write_spec ⟨[⟨"H"⟩, ⟨"D"⟩], false⟩ 0 [1, 2] rfl
